import Mathlib

/-
Verification of the Hiremote operations portal (`app.py`).

The embedding below translates the data model and the pure logic of the
Flask application into Lean:

* Database tables become Lean lists of records; SQL `INSERT` becomes list
  append (rowid order = insertion order) and a `SELECT ... WHERE ... ORDER BY`
  becomes `List.filter` followed by a stable `mergeSort` (SQLite's sorter is
  modelled as stable; every property proved here is tie-order insensitive).
* SQLite compares `TEXT` values byte-wise (BINARY collation); for valid
  Unicode this is code-point lexicographic order, modelled by `strLe` below.
  `ORDER BY datetime(created_at)` agrees with raw string comparison on the
  fixed-format ISO-8601 strings that `store_submission` writes
  (`datetime.utcnow().isoformat()`), so the ordering key is the string itself.
* Python floats are modelled as exact rationals (`ℚ`); `round(x, 2)` becomes
  rounding of a rational to an integer number of hundredths.
* Fallible external queries (Supabase) are modelled as `Except Unit` inputs;
  the wall-clock timestamps that the code computes are explicit parameters.
-/

namespace Hiremote

/-! ## Byte-wise string comparison (SQLite TEXT collation) -/

/-- Lexicographic `≤` on character lists, comparing code points.  This is
SQLite's BINARY collation on the UTF-8 encodings of valid Unicode strings. -/
def lexLe : List Char → List Char → Bool
  | [], _ => true
  | _ :: _, [] => false
  | a :: as, b :: bs =>
    if a.toNat < b.toNat then true
    else if b.toNat < a.toNat then false
    else lexLe as bs

/-- Byte-wise string `≤`, as used by SQLite for `TEXT` comparison and
ordering. -/
def strLe (a b : String) : Bool := lexLe a.data b.data

/-! ## Data model: users and submissions -/

/-- A row of the `users` table. -/
structure User where
  id : Nat
  name : String
  email : String
  role : String
  store_number : String
deriving DecidableEq, Repr

/-- A row of the `submissions` table (the autoincrement `id` column is
implicit in the list position and not needed by any claim). -/
structure Submission where
  user_id : Nat
  employee_name : String
  store_number : String
  category : String
  report_type : String
  notes : String
  payload : String
  created_at : String
deriving DecidableEq, Repr

/-- Models `store_submission(user, category, report_type, notes, payload)`: inserts
one row, denormalizing the user's name and store number, serializing the
payload (the serialized text is the `payloadText` argument here) and stamping
`datetime.utcnow().isoformat()` (the `now` argument). -/
def store_submission (user : User) (category report_type notes : String)
    (payloadText : String) (now : String) (db : List Submission) :
    List Submission :=
  db ++ [{ user_id := user.id
           employee_name := user.name
           store_number := user.store_number
           category := category
           report_type := report_type
           notes := notes
           payload := payloadText
           created_at := now }]

/-- One optional filter of `fetch_submissions`: the `if store:` pattern adds
the SQL condition only when the parameter is truthy (present and non-empty). -/
def optFilter (p : Option String) (cond : String → Bool) : Bool :=
  match p with
  | none => true
  | some v => if v == "" then true else cond v

/-- The conjunctive `WHERE` clause that `fetch_submissions` builds. -/
def submission_filter (store category employee start endp : Option String)
    (row : Submission) : Bool :=
  optFilter store (fun v => row.store_number == v) &&
  optFilter category (fun v => row.category == v) &&
  optFilter employee (fun v => row.employee_name == v) &&
  optFilter start (fun v => strLe v row.created_at) &&
  optFilter endp (fun v => strLe row.created_at v)

/-- Models `fetch_submissions(store?, category?, employee?, start?, end?)`:
`SELECT * FROM submissions WHERE <conjunctive filter>
 ORDER BY datetime(created_at) DESC`. -/
def fetch_submissions (store category employee start endp : Option String)
    (db : List Submission) : List Submission :=
  (db.filter (submission_filter store category employee start endp)).mergeSort
    (fun a b => strLe b.created_at a.created_at)

/-! ## The `/reports` route (`client_reports`) -/

/-- Role constants from the source. -/
def ROLE_EMPLOYEE : String := "employee"

def ROLE_IRONHAND : String := "ironhand"

def ROLE_CLIENT : String := "client"

/-- Models `request.args.get(name) or None`: a missing or empty query parameter
becomes `None`. -/
def pyArgOrNone (v : Option String) : Option String :=
  match v with
  | none => none
  | some s => if s == "" then none else some s

/-- The query string of a `/reports` request (only the parameters the route
reads). -/
structure ReportQuery where
  category : Option String
  employee : Option String
  start : Option String
  endp : Option String
  store_number : Option String
deriving DecidableEq, Repr

/-- The `/reports` route body: non-client/non-ironhand roles get a 403
(`none` here); for a client the store filter is overwritten with the user's
own `store_number` before `fetch_submissions` runs. -/
def client_reports (user : User) (q : ReportQuery) (db : List Submission) :
    Option (List Submission) :=
  if user.role == ROLE_CLIENT || user.role == ROLE_IRONHAND then
    let category := pyArgOrNone q.category
    let employee := pyArgOrNone q.employee
    let start := pyArgOrNone q.start
    let endp := pyArgOrNone q.endp
    let store_number :=
      if user.role == ROLE_CLIENT then some user.store_number
      else pyArgOrNone q.store_number
    some (fetch_submissions store_number category employee start endp db)
  else
    none

/-! ## The assistant endpoint: request body and history handling -/

/-- A history entry in the assistant request body: an object with optional
string `role` and `content` fields (the shapes the front end sends; a
missing field is `none`). -/
structure HistEntry where
  role : Option String
  content : Option String
deriving DecidableEq, Repr

/-- Models `x or ""` for an optional string (Python treats `None` and `""` as
falsy). -/
def pyOrEmpty : Option String → String
  | none => ""
  | some s => s

/-- Characters Python's `str.strip()` removes (ASCII whitespace; the model
covers the ASCII range). -/
def isPySpace (c : Char) : Bool :=
  c == ' ' || c == '\t' || c == '\n' || c == '\r' || c.toNat == 11 || c.toNat == 12

/-- Python `str.strip()`. -/
def pyStrip (s : String) : String :=
  String.mk (((s.data.dropWhile isPySpace).reverse.dropWhile isPySpace).reverse)

/-- Python `history[-n:]` for a configured window `n ≥ 0`: the last `n`
elements; `history[-0:]` is `history[0:]`, the whole list. -/
def pyLastSlice {α : Type} (n : Nat) (l : List α) : List α :=
  if n = 0 then l else l.drop (l.length - n)

/-- One message of the conversation sent to the chat service (the
single-element `content` list with `type: input_text` is collapsed to its
text). -/
structure Msg where
  role : String
  text : String
deriving DecidableEq, Repr

/-- The guard of the history loop: the entry is kept when its role is
`"user"` or `"assistant"` and its content is non-empty after trimming. -/
def histKeep (e : HistEntry) : Bool :=
  (e.role == some "user" || e.role == some "assistant") &&
  !(pyStrip (pyOrEmpty e.content) == "")

/-- The message appended for a kept history entry (trimmed content). -/
def histMsg (e : HistEntry) : Msg :=
  { role := (e.role).getD "", text := pyStrip (pyOrEmpty e.content) }

/-- The ordered conversation the assistant endpoint sends: two system
messages (fixed instruction, store-context JSON), then the loop
`for item in history[-AI_MAX_CONTEXT_ITEMS:]` appending kept entries, then
the new user message. -/
def assistant_messages (n : Nat) (systemPrompt contextText message : String)
    (history : List HistEntry) : List Msg :=
  let base : List Msg := [⟨"system", systemPrompt⟩, ⟨"system", contextText⟩]
  let withHistory := (pyLastSlice n history).foldl
    (fun msgs item => if histKeep item then msgs ++ [histMsg item] else msgs) base
  withHistory ++ [⟨"user", message⟩]

/-- The history portion of the conversation as C3 words it: the last `n`
entries of the list of well-formed history entries (truncation applied
after dropping the malformed ones). -/
def lastWellFormedMsgs (n : Nat) (history : List HistEntry) : List Msg :=
  pyLastSlice n ((history.filter histKeep).map histMsg)

/-! ## C9: a non-list `history` value is treated as empty -/

/-- A JSON value in the assistant request body, as far as the endpoint
inspects it (list items are history-entry objects; for other shapes only
truthiness matters, so objects are represented by their field names). -/
inductive ReqVal where
  | null
  | str (s : String)
  | num (q : ℚ)
  | boolean (b : Bool)
  | list (items : List HistEntry)
  | obj (fields : List String)
deriving DecidableEq

/-- Python truthiness of a request-body value. -/
def reqTruthy : ReqVal → Bool
  | .null => false
  | .str s => !(s == "")
  | .num q => !(q == 0)
  | .boolean b => b
  | .list items => !items.isEmpty
  | .obj fields => !fields.isEmpty

/-- Models `isinstance(v, list)`. -/
def reqIsList : ReqVal → Bool
  | .list _ => true
  | _ => false

/-- Models `payload.get("history") or []`. -/
def historyOrDefault (v : Option ReqVal) : ReqVal :=
  match v with
  | none => .list []
  | some w => if reqTruthy w then w else .list []

/-- Models `if not isinstance(history, list): history = []`. -/
def coerceHistoryList (w : ReqVal) : List HistEntry :=
  match w with
  | .list items => items
  | _ => []

/-- The history list the assistant endpoint ends up iterating over, given
the (possibly absent) `"history"` value of the request body. -/
def assistant_history (v : Option ReqVal) : List HistEntry :=
  coerceHistoryList (historyOrDefault v)

/-! ## POS summary (`load_pos_summary`)

IEEE float arithmetic is modelled as exact rational arithmetic, and
`round(x, 2)` as rounding a rational to a whole number of hundredths. -/

/-- A JSON value read from an analytics row, as far as the numeric coercions
inspect it: `int` a JSON integer, `float` a JSON fractional number, and
`nonNumeric` any value whose coercion raises (`TypeError`/`ValueError`). -/
inductive PVal where
  | int (n : ℤ)
  | float (q : ℚ)
  | nonNumeric
deriving DecidableEq, Repr

/-- Python `int(...)` truncates a float toward zero. -/
def ratTrunc (q : ℚ) : ℤ := if q < 0 then ⌈q⌉ else ⌊q⌋

/-- Models `_safe_float(value)`: `None`, or a value `float` rejects, becomes `0.0`. -/
def _safe_float : Option PVal → ℚ
  | none => 0
  | some (.int n) => (n : ℚ)
  | some (.float q) => q
  | some .nonNumeric => 0

/-- Models `_safe_int(value)`: `None`, or a value `int` rejects, becomes `0`;
floats are truncated toward zero. -/
def _safe_int : Option PVal → ℤ
  | none => 0
  | some (.int n) => n
  | some (.float q) => ratTrunc q
  | some .nonNumeric => 0

/-- Models `round(x, 2)`. -/
def round2 (q : ℚ) : ℚ := ((round (q * 100) : ℤ) : ℚ) / 100

/-- A row of the daily-aggregates table (`row.get(...)`: a missing column is
`none`). -/
structure DailyRow where
  gross_sales : Option PVal
  net_sales : Option PVal
  transactions : Option PVal
  items_sold : Option PVal
deriving DecidableEq, Repr

/-- A row of the per-item table. -/
structure ItemRow where
  item_name : Option String
  item_sku : Option String
  quantity : Option PVal
  gross_sales : Option PVal
deriving DecidableEq, Repr

/-- Python `a or b` on an optional string (`None` and `""` are falsy). -/
def pyOrStr (a : Option String) (b : String) : String :=
  match a with
  | none => b
  | some s => if s == "" then b else s

/-- Models `row.get("item_name") or row.get("item_sku") or "Unknown item"`. -/
def itemKey (row : ItemRow) : String :=
  pyOrStr row.item_name (pyOrStr row.item_sku "Unknown item")

/-- One entry of `item_totals` (the dict values, in insertion order). -/
structure ItemTotal where
  item_name : String
  quantity : ℤ
  gross_sales : ℚ
deriving DecidableEq, Repr

/-- One iteration of the `for row in item_rows` loop: `setdefault` then
in-place `+=` on the entry keyed by the row's name. -/
def addRow (totals : List ItemTotal) (row : ItemRow) : List ItemTotal :=
  let name := itemKey row
  if totals.any (fun t => t.item_name == name) then
    totals.map fun t =>
      if t.item_name == name then
        { t with quantity := t.quantity + _safe_int row.quantity
                 gross_sales := t.gross_sales + _safe_float row.gross_sales }
      else t
  else
    totals ++ [{ item_name := name
                 quantity := _safe_int row.quantity
                 gross_sales := _safe_float row.gross_sales }]

/-- The `item_totals` dict of `load_pos_summary`, as its insertion-ordered
value list. -/
def item_totals (rows : List ItemRow) : List ItemTotal :=
  rows.foldl addRow []

/-- Models `sorted(item_totals.values(), key=quantity, reverse=True)[:5]` (Python's
sort is stable; so is `mergeSort`). -/
def top_items_of (rows : List ItemRow) : List ItemTotal :=
  ((item_totals rows).mergeSort fun a b => decide (b.quantity ≤ a.quantity)).take 5

/-- The result dictionary of `load_pos_summary`: `status` is always present,
each other key only on some paths (`none` = key absent). -/
structure PosSummary where
  status : String
  window_start : Option String
  days : Option Nat
  gross_sales : Option ℚ
  net_sales : Option ℚ
  transactions : Option ℤ
  items_sold : Option ℤ
  top_items : Option (List ItemTotal)
deriving DecidableEq, Repr

/-- Models `load_pos_summary(store_id)`.  The Supabase client's presence is the
`configured` flag; the two table queries (already filtered by store id and
the 30-day window) are the `daily` and `items` inputs, an `Except.error`
modelling a raised query fault; `window_start` is the computed trailing
window start date. -/
def load_pos_summary (configured : Bool) (window_start : String)
    (daily : Except Unit (List DailyRow)) (items : Except Unit (List ItemRow)) :
    PosSummary :=
  if !configured then
    { status := "not_configured", window_start := none, days := none,
      gross_sales := none, net_sales := none, transactions := none,
      items_sold := none, top_items := none }
  else
    match daily with
    | .error _ =>
      { status := "unavailable", window_start := none, days := none,
        gross_sales := none, net_sales := none, transactions := none,
        items_sold := none, top_items := none }
    | .ok daily_rows =>
      let item_rows := match items with
        | .error _ => []
        | .ok l => l
      let tis := top_items_of item_rows
      { status := "ok"
        window_start := some window_start
        days := some daily_rows.length
        gross_sales := some (round2 ((daily_rows.map fun r => _safe_float r.gross_sales).sum))
        net_sales := some (round2 ((daily_rows.map fun r => _safe_float r.net_sales).sum))
        transactions := some ((daily_rows.map fun r => _safe_int r.transactions).sum)
        items_sold := some ((daily_rows.map fun r => _safe_int r.items_sold).sum)
        top_items := if tis.isEmpty then none else some tis }

/-! ## C5: grouping and top-5 selection of the item rows -/

/-- Insert a key unless already present (the effect of `setdefault` on the
dict's key sequence). -/
def insertNewKey (ks : List String) (k : String) : List String :=
  if ks.any (fun x => x == k) then ks else ks ++ [k]

/-- The distinct keys of a key sequence in first-occurrence order: the
grouping structure C5 describes. -/
def firstOccur (keys : List String) : List String :=
  keys.foldl insertNewKey []

/-- The quantity total C5 ascribes to the group keyed `k`: the sum of the
coerced quantities of the rows with that key. -/
def qtySumOfKey (rows : List ItemRow) (k : String) : ℤ :=
  ((rows.filter fun r => itemKey r == k).map fun r => _safe_int r.quantity).sum

/-- The gross-sales total C5 ascribes to the group keyed `k`. -/
def grossSumOfKey (rows : List ItemRow) (k : String) : ℚ :=
  ((rows.filter fun r => itemKey r == k).map fun r => _safe_float r.gross_sales).sum

/-- The accumulator's quantity for key `k` (`0` when the key is absent). -/
def qtyOfAcc (k : String) (acc : List ItemTotal) : ℤ :=
  match acc.find? (fun t => t.item_name == k) with
  | some t => t.quantity
  | none => 0

/-- The accumulator's gross-sales for key `k`. -/
def grossOfAcc (k : String) (acc : List ItemTotal) : ℚ :=
  match acc.find? (fun t => t.item_name == k) with
  | some t => t.gross_sales
  | none => 0

/-! ## Uploads: filename sanitization, extension whitelist, file saving -/

/-- The characters werkzeug's sanitizer keeps: `[A-Za-z0-9_.-]`. -/
def isSafeFilenameChar (c : Char) : Bool :=
  (65 ≤ c.toNat && c.toNat ≤ 90) || (97 ≤ c.toNat && c.toNat ≤ 122) ||
  (48 ≤ c.toNat && c.toNat ≤ 57) || c == '_' || c == '.' || c == '-'

/-- Python `str.split()` (split on whitespace runs, dropping empties),
accumulator-style. -/
def splitWsAux : List Char → List Char → List (List Char)
  | [], cur => if cur.isEmpty then [] else [cur.reverse]
  | c :: rest, cur =>
    if isPySpace c then
      if cur.isEmpty then splitWsAux rest [] else cur.reverse :: splitWsAux rest []
    else splitWsAux rest (c :: cur)

/-- Models `"_".join(words)`. -/
def joinUnderscore : List (List Char) → List Char
  | [] => []
  | [w] => w
  | w :: ws => w ++ '_' :: joinUnderscore ws

/-- Python `str.strip("._")`. -/
def stripDotsUnders (cs : List Char) : List Char :=
  ((cs.dropWhile fun c => c == '.' || c == '_').reverse.dropWhile
    fun c => c == '.' || c == '_').reverse

/-- Models `werkzeug.utils.secure_filename` (an external dependency of the
source) on ASCII filenames: non-ASCII characters are dropped (the NFKD
decomposition step of the original is not modelled), the path separator
becomes a space, whitespace runs become a single underscore, characters
outside `[A-Za-z0-9_.-]` are removed, and leading/trailing `.`/`_` are
stripped. -/
def secure_filename (filename : String) : String :=
  let ascii := filename.data.filter fun c => c.toNat < 128
  let replaced := ascii.map fun c => if c == '/' then ' ' else c
  let joined := joinUnderscore (splitWsAux replaced [])
  let stripped := joined.filter isSafeFilenameChar
  String.mk (stripDotsUnders stripped)

/-- The extension whitelist. -/
def ALLOWED_EXTENSIONS : List String :=
  ["png", "jpg", "jpeg", "gif", "mp4", "mov", "avi", "pdf", "doc", "docx", "txt"]

/-- Python `str.lower()` (ASCII case folding). -/
def pyLower (s : String) : String := String.mk (s.data.map Char.toLower)

/-- Models `allowed_file(filename)`: a dot is present and the lowercase text after
the last dot (`rsplit(".", 1)[1]`) is in the whitelist. -/
def allowed_file (filename : String) : Bool :=
  filename.data.contains '.' &&
  ALLOWED_EXTENSIONS.contains
    (pyLower (String.mk ((filename.data.reverse.takeWhile fun c => !(c == '.')).reverse)))

/-- An uploaded file handle, as far as `save_uploaded_files` inspects it. -/
structure PyFile where
  filename : String
  mimetype : String
deriving DecidableEq, Repr

/-- The metadata dict `save_uploaded_files` records per saved file. -/
structure StoredFile where
  field : String
  stored_name : String
  original_name : String
  mime : String
deriving DecidableEq, Repr

/-- Models `save_uploaded_files(files)`.  The first component is the list of
relative paths written to disk, in write order (a later write to a path
already in the list overwrites the earlier file); the second is the loop's
outcome: the metadata list, or the `ValueError` message of the first file
whose sanitized name fails the extension check (raised before that file is
written, with no rollback of earlier writes). -/
def save_uploaded_files (timestamp : String) :
    List (String × Option PyFile) → List String × Except String (List StoredFile)
  | [] => ([], .ok [])
  | (field_name, fileOpt) :: rest =>
    match fileOpt with
    | none => save_uploaded_files timestamp rest
    | some f =>
      if f.filename == "" then save_uploaded_files timestamp rest
      else
        let filename := secure_filename f.filename
        if !(allowed_file filename) then
          ([], .error ("Unsupported file type for " ++ filename))
        else
          let path := timestamp ++ "/" ++ filename
          match save_uploaded_files timestamp rest with
          | (written, .ok metas) =>
            (path :: written,
             .ok ({ field := field_name, stored_name := path,
                    original_name := filename, mime := f.mimetype } :: metas))
          | (written, .error e) => (path :: written, .error e)

/-- The fields of the mapping that actually carry a file (non-`None` handle
with a non-empty filename): the ones the loop does not skip. -/
def presentFiles (files : List (String × Option PyFile)) :
    List (String × PyFile) :=
  files.filterMap fun fp =>
    match fp.2 with
    | none => none
    | some f => if f.filename == "" then none else some (fp.1, f)

/-- Whether a present file passes the extension check on its sanitized
name. -/
def fileValid (f : PyFile) : Bool := allowed_file (secure_filename f.filename)

/-- The stored relative path of a present file. -/
def storedPath (timestamp : String) (p : String × PyFile) : String :=
  timestamp ++ "/" ++ secure_filename p.2.filename

/-- The metadata entry of a present file. -/
def storedMeta (timestamp : String) (p : String × PyFile) : StoredFile :=
  { field := p.1
    stored_name := storedPath timestamp p
    original_name := secure_filename p.2.filename
    mime := p.2.mimetype }

/-! ## JSON serialization (`json.dumps` / `json.loads` on stored payloads)

Every payload this application stores is built from strings, lists and
string-keyed dicts (`upload_shift`: `{"files": [...], "notes": ...}`;
`upload_report`: `{"summary": ..., "files": [...]}`), so the JSON value
type needs only those three constructors.  The serializer mirrors
`json.dumps` with its defaults: separators `", "` and `": "`, and
`ensure_ascii=True` (`"`, `\`, control and non-ASCII characters escaped,
astral code points as surrogate pairs).  The decoder models `json.loads`
on such texts. -/

/-- A JSON value of the shapes this application stores. -/
inductive JVal where
  | str (s : String)
  | arr (items : List JVal)
  | obj (fields : List (String × JVal))

mutual

/-- Node count of a JSON value (drives the decoder's fuel bound). -/
def sizeV : JVal → Nat
  | .str _ => 1
  | .arr items => 1 + sizeL items
  | .obj fields => 1 + sizeO fields

def sizeL : List JVal → Nat
  | [] => 0
  | v :: vs => sizeV v + sizeL vs

def sizeO : List (String × JVal) → Nat
  | [] => 0
  | (_, v) :: kvs => 1 + sizeV v + sizeO kvs

end

/-- Lowercase hex digit. -/
def hexDig (n : Nat) : Char :=
  if n < 10 then Char.ofNat (48 + n) else Char.ofNat (87 + n)

/-- Four hex digits of `n < 0x10000`. -/
def hex4 (n : Nat) : List Char :=
  [hexDig (n / 4096 % 16), hexDig (n / 256 % 16), hexDig (n / 16 % 16),
   hexDig (n % 16)]

/-- A `\uXXXX` escape. -/
def uEscape (n : Nat) : List Char := '\\' :: 'u' :: hex4 n

/-- How `json.dumps` (with `ensure_ascii=True`) renders one character:
short escapes for the common controls, `\uXXXX` for other controls and all
non-ASCII (surrogate pairs beyond the BMP), the character itself otherwise. -/
def jEscapeChar (c : Char) : List Char :=
  if c = '"' then ['\\', '"']
  else if c = '\\' then ['\\', '\\']
  else if c = '\n' then ['\\', 'n']
  else if c = '\t' then ['\\', 't']
  else if c = '\r' then ['\\', 'r']
  else if c.toNat = 8 then ['\\', 'b']
  else if c.toNat = 12 then ['\\', 'f']
  else if c.toNat < 32 ∨ 127 ≤ c.toNat then
    if c.toNat < 65536 then uEscape c.toNat
    else
      uEscape (55296 + (c.toNat - 65536) / 1024) ++
        uEscape (56320 + (c.toNat - 65536) % 1024)
  else [c]

def escapeList : List Char → List Char
  | [] => []
  | c :: cs => jEscapeChar c ++ escapeList cs

/-- A JSON string literal. -/
def dumpStr (s : String) : List Char := '"' :: (escapeList s.data ++ ['"'])

mutual

/-- Models `json.dumps` of a value, as a character list. -/
def dumpV : JVal → List Char
  | .str s => dumpStr s
  | .arr [] => ['[', ']']
  | .arr (v :: vs) => '[' :: (dumpV v ++ dumpArrTail vs ++ [']'])
  | .obj [] => ['{', '}']
  | .obj (kv :: kvs) => '{' :: (dumpPair kv ++ dumpObjTail kvs ++ ['}'])

def dumpPair : String × JVal → List Char
  | (k, v) => dumpStr k ++ ':' :: ' ' :: dumpV v

def dumpArrTail : List JVal → List Char
  | [] => []
  | v :: vs => ',' :: ' ' :: (dumpV v ++ dumpArrTail vs)

def dumpObjTail : List (String × JVal) → List Char
  | [] => []
  | kv :: kvs => ',' :: ' ' :: (dumpPair kv ++ dumpObjTail kvs)

end

/-- Models `json.dumps`. -/
def json_dumps (v : JVal) : String := String.mk (dumpV v)

/-- Skip JSON whitespace. -/
def skipWs : List Char → List Char
  | [] => []
  | c :: cs =>
    if c == ' ' || c == '\n' || c == '\t' || c == '\r' then skipWs cs
    else c :: cs

/-- Value of a hex digit (either case). -/
def hexVal (c : Char) : Option Nat :=
  if 48 ≤ c.toNat && c.toNat ≤ 57 then some (c.toNat - 48)
  else if 97 ≤ c.toNat && c.toNat ≤ 102 then some (c.toNat - 87)
  else if 65 ≤ c.toNat && c.toNat ≤ 70 then some (c.toNat - 55)
  else none

def hex4Val (a b c d : Char) : Option Nat := do
  let x ← hexVal a
  let y ← hexVal b
  let z ← hexVal c
  let w ← hexVal d
  return 4096 * x + 256 * y + 16 * z + w

/-- Decode a JSON string body (after the opening quote) up to its closing
quote: unescapes what the serializer produces, reassembling surrogate
pairs; a raw control character, bad escape, or lone surrogate is an
error.  The fuel decreases once per decoded character, so any fuel above
the decoded length suffices; callers pass the input length plus one. -/
def parseStrBody : Nat → List Char → Option (List Char × List Char)
  | 0, _ => none
  | _ + 1, [] => none
  | fuel + 1, c :: rest =>
    if c = '"' then some ([], rest)
    else if c = '\\' then
      match rest with
      | '"' :: r => (parseStrBody fuel r).map fun p => ('"' :: p.1, p.2)
      | '\\' :: r => (parseStrBody fuel r).map fun p => ('\\' :: p.1, p.2)
      | '/' :: r => (parseStrBody fuel r).map fun p => ('/' :: p.1, p.2)
      | 'n' :: r => (parseStrBody fuel r).map fun p => ('\n' :: p.1, p.2)
      | 't' :: r => (parseStrBody fuel r).map fun p => ('\t' :: p.1, p.2)
      | 'r' :: r => (parseStrBody fuel r).map fun p => ('\r' :: p.1, p.2)
      | 'b' :: r => (parseStrBody fuel r).map fun p => (Char.ofNat 8 :: p.1, p.2)
      | 'f' :: r => (parseStrBody fuel r).map fun p => (Char.ofNat 12 :: p.1, p.2)
      | 'u' :: a :: b :: c2 :: d :: r =>
        (hex4Val a b c2 d).bind fun n =>
          if 55296 ≤ n ∧ n ≤ 56319 then
            match r with
            | '\\' :: 'u' :: e :: f :: g :: h :: r2 =>
              (hex4Val e f g h).bind fun m =>
                if 56320 ≤ m ∧ m ≤ 57343 then
                  (parseStrBody fuel r2).map fun p =>
                    (Char.ofNat (65536 + (n - 55296) * 1024 + (m - 56320)) :: p.1,
                     p.2)
                else none
            | _ => none
          else if 56320 ≤ n ∧ n ≤ 57343 then none
          else (parseStrBody fuel r).map fun p => (Char.ofNat n :: p.1, p.2)
      | _ => none
    else if c.toNat < 32 then none
    else (parseStrBody fuel rest).map fun p => (c :: p.1, p.2)

mutual

/-- Decode one JSON value (string, array or object), returning it and the
unconsumed input.  The fuel decreases on every nested call; any fuel at
least the value's node count suffices. -/
def parseVal : Nat → List Char → Option (JVal × List Char)
  | 0, _ => none
  | fuel + 1, chars =>
    match skipWs chars with
    | '"' :: rest =>
      match parseStrBody (rest.length + 1) rest with
      | some (cs, r) => some (.str (String.mk cs), r)
      | none => none
    | '[' :: rest =>
      if (skipWs rest).head? = some ']' then some (.arr [], (skipWs rest).tail)
      else
        match parseVal fuel rest with
        | some (v, r) =>
          match parseArrTail fuel r with
          | some (vs, r2) => some (.arr (v :: vs), r2)
          | none => none
        | none => none
    | '{' :: rest =>
      if (skipWs rest).head? = some '}' then some (.obj [], (skipWs rest).tail)
      else
        match parsePair fuel rest with
        | some (kv, r) =>
          match parseObjTail fuel r with
          | some (kvs, r2) => some (.obj (kv :: kvs), r2)
          | none => none
        | none => none
    | _ => none

/-- Decode one `"key": value` pair of an object. -/
def parsePair : Nat → List Char → Option ((String × JVal) × List Char)
  | 0, _ => none
  | fuel + 1, chars =>
    match skipWs chars with
    | '"' :: rest =>
      match parseStrBody (rest.length + 1) rest with
      | some (cs, r) =>
        match skipWs r with
        | ':' :: r2 =>
          match parseVal fuel r2 with
          | some (v, r3) => some ((String.mk cs, v), r3)
          | none => none
        | _ => none
      | none => none
    | _ => none

/-- Decode the rest of an array after its first element. -/
def parseArrTail : Nat → List Char → Option (List JVal × List Char)
  | 0, _ => none
  | fuel + 1, chars =>
    match skipWs chars with
    | ']' :: r => some ([], r)
    | ',' :: r =>
      match parseVal fuel r with
      | some (v, r2) =>
        match parseArrTail fuel r2 with
        | some (vs, r3) => some (v :: vs, r3)
        | none => none
      | none => none
    | _ => none

/-- Decode the rest of an object after its first pair. -/
def parseObjTail : Nat → List Char → Option (List (String × JVal) × List Char)
  | 0, _ => none
  | fuel + 1, chars =>
    match skipWs chars with
    | '}' :: r => some ([], r)
    | ',' :: r =>
      match parsePair fuel r with
      | some (kv, r2) =>
        match parseObjTail fuel r2 with
        | some (kvs, r3) => some (kv :: kvs, r3)
        | none => none
      | none => none
    | _ => none

end

/-- Models `json.loads`: decode a complete document (trailing whitespace allowed,
trailing garbage rejected). -/
def json_loads (s : String) : Option JVal :=
  match parseVal (s.data.length + 1) s.data with
  | some (v, rest) => if (skipWs rest).isEmpty then some v else none
  | none => none

/-- The `load_payload` template filter: an absent or empty payload column,
or undecodable JSON, displays as the empty dict. -/
def load_payload (payload : Option String) : JVal :=
  match payload with
  | none => .obj []
  | some s =>
    if s == "" then .obj []
    else
      match json_loads s with
      | some v => v
      | none => .obj []

/-! ## Shift uploads: payload round trip (C8) and the `/upload/shift` route (C7) -/

/-- The JSON object `save_uploaded_files` metadata becomes inside the
payload (dict key order as written in the source). -/
def storedFileJ (m : StoredFile) : JVal :=
  .obj [("field", .str m.field), ("stored_name", .str m.stored_name),
        ("original_name", .str m.original_name), ("mime", .str m.mime)]

/-- The payload dict `upload_shift` stores:
`{"files": saved_files, "notes": notes}`. -/
def shiftPayloadJ (files : List StoredFile) (notes : String) : JVal :=
  .obj [("files", .arr (files.map storedFileJ)), ("notes", .str notes)]

/-- Models `upload_shift` (the POST `/upload/shift` handler body after the
role gate): tries to save the three named files; a `ValueError` from
`save_uploaded_files` flashes its message and inserts nothing; fewer than 3
saved files flashes the fixed message and inserts nothing; otherwise exactly
one `"shift"` submission with the form's notes and the files/notes payload
is inserted.  Returns the new table contents and the flashed message. -/
def upload_shift (user : User) (notes : String)
    (scratcher cash sales : Option PyFile) (ts now : String)
    (db : List Submission) : List Submission × String :=
  match save_uploaded_files ts
      [("scratcher_video", scratcher), ("cash_photo", cash),
       ("sales_photo", sales)] with
  | (_, .error e) => (db, e)
  | (_, .ok saved) =>
    if saved.length < 3 then
      (db, "All three files are required for end-of-shift upload.")
    else
      (store_submission user "shift" "shift" notes
        (json_dumps (shiftPayloadJ saved notes)) now db,
       "Shift submitted. Great work!")

/-- The one-row input and its group used by the closed instance of C5. -/
def c5Row : ItemRow :=
  { item_name := some "Coke", item_sku := none, quantity := some (.int 3),
    gross_sales := some (.float (5 / 2)) }

def c5Group : ItemTotal :=
  { item_name := "Coke", quantity := 3, gross_sales := 5 / 2 }

theorem lexLe_total (a b : List Char) : lexLe a b || lexLe b a := by
  induction a generalizing b with
  | nil => simp [lexLe]
  | cons x xs ih =>
    cases b with
    | nil => simp [lexLe]
    | cons y ys =>
      rcases Nat.lt_trichotomy x.toNat y.toNat with h | h | h
      · simp [lexLe, h]
      · simpa [lexLe, h, Nat.lt_irrefl] using ih ys
      · simp [lexLe, h, Nat.lt_asymm h]

theorem lexLe_trans (a b c : List Char) (hab : lexLe a b) (hbc : lexLe b c) :
    lexLe a c := by
  induction a generalizing b c with
  | nil => simp [lexLe]
  | cons x xs ih =>
    cases b with
    | nil => simp [lexLe] at hab
    | cons y ys =>
      cases c with
      | nil => simp [lexLe] at hbc
      | cons z zs =>
        by_cases h1 : x.toNat < y.toNat
        · by_cases h2 : y.toNat < z.toNat
          · simp [lexLe, Nat.lt_trans h1 h2]
          · by_cases h3 : z.toNat < y.toNat
            · simp [lexLe, h2, h3] at hbc
            · have hxz : x.toNat < z.toNat := by omega
              simp [lexLe, hxz]
        · by_cases h4 : y.toNat < x.toNat
          · simp [lexLe, h1, h4] at hab
          · by_cases h2 : y.toNat < z.toNat
            · have hxz : x.toNat < z.toNat := by omega
              simp [lexLe, hxz]
            · by_cases h3 : z.toNat < y.toNat
              · simp [lexLe, h2, h3] at hbc
              · have hxz : ¬ x.toNat < z.toNat := by omega
                have hzx : ¬ z.toNat < x.toNat := by omega
                simp [lexLe, h1, h4] at hab
                simp [lexLe, h2, h3] at hbc
                simp [lexLe, hxz, hzx]
                exact ih ys zs hab hbc

theorem strLe_total (a b : String) : strLe a b || strLe b a :=
  lexLe_total a.data b.data

theorem strLe_trans (a b c : String) (hab : strLe a b) (hbc : strLe b c) :
    strLe a c :=
  lexLe_trans a.data b.data c.data hab hbc

theorem submission_filter_eq_claim
    (store category employee start endp : Option String) (row : Submission) :
    submission_filter store category employee start endp row =
      ((match store with
        | none => true
        | some v => v == "" || row.store_number == v) &&
       (match category with
        | none => true
        | some v => v == "" || row.category == v) &&
       (match employee with
        | none => true
        | some v => v == "" || row.employee_name == v) &&
       (match start with
        | none => true
        | some v => v == "" || strLe v row.created_at) &&
       (match endp with
        | none => true
        | some v => v == "" || strLe row.created_at v)) := by
  have key : ∀ (p : Option String) (f : String → Bool),
      optFilter p f = (match p with
        | none => true
        | some v => v == "" || f v) := by
    intro p f
    cases p with
    | none => rfl
    | some v =>
      show (if v == "" then true else f v) = (v == "" || f v)
      cases h : (v == "") <;> simp [h]
  simp only [submission_filter, key]

/-- C1: for every stored set of submissions and every combination of the
optional filters, `fetch_submissions` returns exactly the submissions
satisfying the conjunction of the non-empty filters (equality on
store/category/employee, inclusive string-comparison bounds for start/end
against the stored ISO timestamp), ordered by `created_at` descending; with
no filters it returns all submissions in that order. -/
theorem C1_fetch_submissions_filter_and_order
    (store category employee start endp : Option String) (db : List Submission) :
    (fetch_submissions store category employee start endp db).Perm
      (db.filter fun row =>
        (match store with
         | none => true
         | some v => v == "" || row.store_number == v) &&
        (match category with
         | none => true
         | some v => v == "" || row.category == v) &&
        (match employee with
         | none => true
         | some v => v == "" || row.employee_name == v) &&
        (match start with
         | none => true
         | some v => v == "" || strLe v row.created_at) &&
        (match endp with
         | none => true
         | some v => v == "" || strLe row.created_at v)) ∧
    List.Pairwise (fun a b => strLe b.created_at a.created_at = true)
      (fetch_submissions store category employee start endp db) ∧
    (fetch_submissions none none none none none db).Perm db := by
  refine ⟨?_, ?_, ?_⟩
  · have hfilter :
        db.filter (submission_filter store category employee start endp) =
        db.filter fun row =>
          (match store with
           | none => true
           | some v => v == "" || row.store_number == v) &&
          (match category with
           | none => true
           | some v => v == "" || row.category == v) &&
          (match employee with
           | none => true
           | some v => v == "" || row.employee_name == v) &&
          (match start with
           | none => true
           | some v => v == "" || strLe v row.created_at) &&
          (match endp with
           | none => true
           | some v => v == "" || strLe row.created_at v) := by
      apply List.filter_congr
      intro row _
      exact submission_filter_eq_claim store category employee start endp row
    exact (List.mergeSort_perm _ _).trans (hfilter ▸ List.Perm.refl _)
  · exact List.sorted_mergeSort
      (fun a b c hab hbc => strLe_trans c.created_at b.created_at a.created_at hbc hab)
      (fun a b => strLe_total b.created_at a.created_at) _
  · have hfilter : db.filter (submission_filter none none none none none) = db := by
      simp [submission_filter, optFilter]
    show ((db.filter (submission_filter none none none none none)).mergeSort
        (fun a b => strLe b.created_at a.created_at)).Perm db
    rw [hfilter]
    exact List.mergeSort_perm db _

/-- C2: for a user with role `client`, the store filter applied by
`/reports` is the client's own `store_number` whatever the `store_number`
query parameter says, so for a fixed database the result is identical
across any two requests differing only in that parameter. -/
theorem C2_client_store_filter_forced (user : User) (h : user.role = ROLE_CLIENT)
    (q : ReportQuery) (s1 s2 : Option String) (db : List Submission) :
    client_reports user { q with store_number := s1 } db =
      client_reports user { q with store_number := s2 } db ∧
    client_reports user q db =
      some (fetch_submissions (some user.store_number) (pyArgOrNone q.category)
        (pyArgOrNone q.employee) (pyArgOrNone q.start) (pyArgOrNone q.endp) db) := by
  constructor <;> simp [client_reports, h]

theorem C2_client_store_filter_forced_witness :
    (let user : User :=
      { id := 3, name := "Chris Client", email := "client@hiremote.com",
        role := "client", store_number := "101" }
     let row : Submission :=
      { user_id := 1, employee_name := "Alex Employee", store_number := "101",
        category := "shift", report_type := "shift", notes := "", payload := "{}",
        created_at := "2024-01-02T03:04:05" }
     let q : ReportQuery :=
      { category := none, employee := none, start := none, endp := none,
        store_number := none }
     client_reports user { q with store_number := some "999" } [row] =
       client_reports user { q with store_number := some "123" } [row] ∧
     client_reports user q [row] =
       some (fetch_submissions (some "101") none none none none [row])) := by
  exact C2_client_store_filter_forced _ rfl _ (some "999") (some "123") _

theorem assistant_foldl_filter (l : List HistEntry) (base : List Msg) :
    l.foldl (fun msgs item => if histKeep item then msgs ++ [histMsg item] else msgs)
        base =
      base ++ (l.filter histKeep).map histMsg := by
  induction l generalizing base with
  | nil => simp
  | cons e t ih =>
    cases h : histKeep e <;> simp [List.foldl_cons, h, ih, List.filter_cons]

/-- C3 as stated is false: the endpoint truncates the raw history to the
last `N` entries first and only then drops malformed ones.  With a history
of one well-formed entry followed by six malformed ones (N = 6, the
default), the conversation sent contains no history message, while the
last-6-of-the-well-formed reading would include the well-formed entry. -/
theorem C3_counterexample :
    assistant_messages 6 "sys" "ctx" "question"
        ({ role := some "user", content := some "hello" } ::
          List.replicate 6 { role := some "note", content := some "x" }) ≠
      [⟨"system", "sys"⟩, ⟨"system", "ctx"⟩] ++
        lastWellFormedMsgs 6
          ({ role := some "user", content := some "hello" } ::
            List.replicate 6 { role := some "note", content := some "x" }) ++
        [⟨"user", "question"⟩] := by
  decide

/-- C3 (amended): the conversation sent to the chat service is the two
system messages, then exactly the well-formed entries — role `"user"` or
`"assistant"`, content non-empty after trimming — among the last `N` raw
history entries, in order and with malformed entries silently dropped, then
the new user message; so the truncation to `N` applies to the raw history,
not to the well-formed entries. -/
theorem C3_history_truncated_then_filtered
    (n : Nat) (systemPrompt contextText message : String)
    (history : List HistEntry) :
    assistant_messages n systemPrompt contextText message history =
      [⟨"system", systemPrompt⟩, ⟨"system", contextText⟩] ++
        ((pyLastSlice n history).filter histKeep).map histMsg ++
        [⟨"user", message⟩] := by
  simp [assistant_messages, assistant_foldl_filter]

theorem coerceHistoryList_of_not_list (w : ReqVal) (h : reqIsList w = false) :
    coerceHistoryList w = [] := by
  cases w <;> simp [reqIsList] at h ⊢ <;> rfl

/-- C9: when the request body's `"history"` value is not a list (a string,
number, boolean, object or null), the endpoint does not error: the history
is silently treated as empty and the conversation built is the one built
with no history at all. -/
theorem C9_non_list_history_treated_empty (v : ReqVal) (h : reqIsList v = false) :
    assistant_history (some v) = [] ∧
    ∀ (n : Nat) (systemPrompt contextText message : String),
      assistant_messages n systemPrompt contextText message
          (assistant_history (some v)) =
        assistant_messages n systemPrompt contextText message [] := by
  have hempty : assistant_history (some v) = [] := by
    show coerceHistoryList (historyOrDefault (some v)) = []
    simp only [historyOrDefault]
    split
    · exact coerceHistoryList_of_not_list v h
    · rfl
  exact ⟨hempty, fun n sp ct m => by rw [hempty]⟩

theorem C9_non_list_history_treated_empty_witness :
    assistant_history (some (ReqVal.str "not-a-list")) = [] ∧
    ∀ (n : Nat) (systemPrompt contextText message : String),
      assistant_messages n systemPrompt contextText message
          (assistant_history (some (ReqVal.str "not-a-list"))) =
        assistant_messages n systemPrompt contextText message [] :=
  C9_non_list_history_treated_empty (ReqVal.str "not-a-list") rfl

/-- C4: with the analytics store configured, a fault on the daily-aggregates
query short-circuits the whole result to `{status: "unavailable"}` (no other
key computed), while a fault on the per-item query is tolerated: the result
is exactly the one obtained with zero item rows — status `"ok"`, the daily
totals kept, and no `top_items` key. -/
theorem C4_daily_fault_fatal_item_fault_tolerated
    (window_start : String) (daily_rows : List DailyRow)
    (items : Except Unit (List ItemRow)) :
    load_pos_summary true window_start (.error ()) items =
      { status := "unavailable", window_start := none, days := none,
        gross_sales := none, net_sales := none, transactions := none,
        items_sold := none, top_items := none } ∧
    load_pos_summary true window_start (.ok daily_rows) (.error ()) =
      load_pos_summary true window_start (.ok daily_rows) (.ok []) ∧
    (load_pos_summary true window_start (.ok daily_rows) (.error ())).status = "ok" ∧
    (load_pos_summary true window_start (.ok daily_rows) (.error ())).top_items = none := by
  refine ⟨rfl, rfl, rfl, ?_⟩
  simp [load_pos_summary, top_items_of, item_totals]

theorem any_name_eq (totals : List ItemTotal) (k : String) :
    totals.any (fun t => t.item_name == k) =
      (totals.map fun t => t.item_name).any (fun s => s == k) := by
  induction totals <;> simp_all

theorem addRow_map_name (totals : List ItemTotal) (row : ItemRow) :
    (addRow totals row).map (fun t => t.item_name) =
      insertNewKey (totals.map fun t => t.item_name) (itemKey row) := by
  rw [insertNewKey, ← any_name_eq]
  by_cases h : totals.any (fun t => t.item_name == itemKey row)
  · rw [if_pos h]
    simp only [addRow, h, if_true, List.map_map]
    apply List.map_congr_left
    intro t _
    simp only [Function.comp_apply]
    split <;> rfl
  · rw [if_neg h]
    simp only [addRow, eq_false_of_ne_true h, Bool.false_eq_true, if_false, List.map_append,
      List.map_cons, List.map_nil]

theorem foldl_addRow_map_name (rows : List ItemRow) (acc : List ItemTotal) :
    (rows.foldl addRow acc).map (fun t => t.item_name) =
      (rows.map itemKey).foldl insertNewKey (acc.map fun t => t.item_name) := by
  induction rows generalizing acc with
  | nil => simp
  | cons r t ih => simp [List.foldl_cons, ih, addRow_map_name]

theorem insertNewKey_nodup (ks : List String) (k : String) (h : ks.Nodup) :
    (insertNewKey ks k).Nodup := by
  rw [insertNewKey]
  by_cases hk : ks.any (fun x => x == k)
  · rwa [if_pos hk]
  · rw [if_neg hk]
    refine List.nodup_append.mpr ⟨h, List.nodup_singleton k, ?_⟩
    intro x hx hx1
    rcases List.mem_singleton.mp hx1 with rfl
    exact hk (List.any_eq_true.mpr ⟨x, hx, beq_self_eq_true x⟩)

theorem foldl_insertNewKey_nodup (keys : List String) (acc : List String)
    (h : acc.Nodup) : (keys.foldl insertNewKey acc).Nodup := by
  induction keys generalizing acc with
  | nil => exact h
  | cons k t ih => exact ih _ (insertNewKey_nodup acc k h)

/-- The group names produced by the fold are duplicate-free. -/
theorem item_totals_names_nodup (rows : List ItemRow) :
    ((item_totals rows).map fun t => t.item_name).Nodup := by
  rw [item_totals, foldl_addRow_map_name]
  exact foldl_insertNewKey_nodup _ _ List.nodup_nil

theorem find?_name_of_mem (acc : List ItemTotal) (g : ItemTotal)
    (hnd : (acc.map fun t => t.item_name).Nodup) (hg : g ∈ acc) :
    acc.find? (fun t => t.item_name == g.item_name) = some g := by
  induction acc with
  | nil => cases hg
  | cons a t ih =>
    rcases List.mem_cons.mp hg with rfl | hgt
    · exact List.find?_cons_of_pos _ (beq_self_eq_true _)
    · have hnd' := List.nodup_cons.mp hnd
      have hne : ¬(a.item_name == g.item_name) = true := by
        intro hab
        exact hnd'.1 (by
          refine List.mem_map.mpr ⟨g, hgt, ?_⟩
          exact (eq_of_beq hab).symm)
      rw [List.find?_cons_of_neg (p := fun t => t.item_name == g.item_name) t hne]
      exact ih hnd'.2 hgt

theorem qtyOfAcc_addRow (acc : List ItemTotal) (row : ItemRow) (k : String) :
    qtyOfAcc k (addRow acc row) =
      qtyOfAcc k acc + (if itemKey row == k then _safe_int row.quantity else 0) ∧
    grossOfAcc k (addRow acc row) =
      grossOfAcc k acc + (if itemKey row == k then _safe_float row.gross_sales else 0) := by
  by_cases hmem : acc.any (fun t => t.item_name == itemKey row)
  · -- `setdefault` found the key: the loop updates the existing entry in place
    have hfind :
        (addRow acc row).find? (fun t => t.item_name == k) =
          Option.map (fun t =>
            if t.item_name == itemKey row then
              { t with quantity := t.quantity + _safe_int row.quantity
                       gross_sales := t.gross_sales + _safe_float row.gross_sales }
            else t) (acc.find? (fun t => t.item_name == k)) := by
      show (addRow acc row).find? (fun t => t.item_name == k) = _
      simp only [addRow, hmem, if_true]
      rw [List.find?_map]
      have hpred : ((fun t : ItemTotal => t.item_name == k) ∘ fun t =>
          if t.item_name == itemKey row then
            { t with quantity := t.quantity + _safe_int row.quantity
                     gross_sales := t.gross_sales + _safe_float row.gross_sales }
          else t) = fun t : ItemTotal => t.item_name == k := by
        funext t
        simp only [Function.comp_apply]
        split <;> rfl
      rw [hpred]
    cases hf : acc.find? (fun t => t.item_name == k) with
    | none =>
      by_cases hk : (itemKey row == k) = true
      · -- impossible: the key was found by `any` but not by `find?`
        obtain ⟨t0, ht0, hp0⟩ := List.any_eq_true.mp hmem
        have := List.find?_eq_none.mp hf t0 ht0
        rw [eq_of_beq hk] at hp0
        exact absurd hp0 this
      · simp [qtyOfAcc, grossOfAcc, hfind, hf, hk]
    | some t =>
      have htk : t.item_name = k :=
        eq_of_beq (List.find?_some (p := fun u : ItemTotal => u.item_name == k) hf)
      by_cases hk : (itemKey row == k) = true
      · have hcondp : t.item_name = itemKey row := by rw [htk, eq_of_beq hk]
        simp [qtyOfAcc, grossOfAcc, hfind, hf, hk, hcondp]
      · have hcondp : ¬ t.item_name = itemKey row := by
          rw [htk]
          intro h
          exact hk (beq_iff_eq.mpr h.symm)
        simp [qtyOfAcc, grossOfAcc, hfind, hf, hk, hcondp]
  · -- key absent: the loop appends a fresh entry
    have haddRow : addRow acc row =
        acc ++ [{ item_name := itemKey row
                  quantity := _safe_int row.quantity
                  gross_sales := _safe_float row.gross_sales }] := by
      simp only [addRow, eq_false_of_ne_true hmem, Bool.false_eq_true, if_false]
    by_cases hk : (itemKey row == k) = true
    · have hnone : acc.find? (fun t => t.item_name == k) = none := by
        refine List.find?_eq_none.mpr fun x hx hp => ?_
        exact hmem (List.any_eq_true.mpr ⟨x, hx, by rwa [eq_of_beq hk]⟩)
      have : (addRow acc row).find? (fun t => t.item_name == k) =
          some { item_name := itemKey row
                 quantity := _safe_int row.quantity
                 gross_sales := _safe_float row.gross_sales } := by
        rw [haddRow, List.find?_append, hnone]
        simp [List.find?_cons, hk]
      simp [qtyOfAcc, grossOfAcc, this, hnone, hk]
    · have : (addRow acc row).find? (fun t => t.item_name == k) =
          acc.find? (fun t => t.item_name == k) := by
        rw [haddRow, List.find?_append]
        have : ([{ item_name := itemKey row
                   quantity := _safe_int row.quantity
                   gross_sales := _safe_float row.gross_sales }] :
            List ItemTotal).find? (fun t => t.item_name == k) = none := by
          simp [List.find?_cons, hk]
        rw [this, Option.or_none]
      simp only [qtyOfAcc, grossOfAcc, this, hk, if_false]
      cases acc.find? (fun t => t.item_name == k) <;> simp

theorem foldl_addRow_sums (rows : List ItemRow) :
    ∀ acc : List ItemTotal, ((acc.map fun t => t.item_name).Nodup) →
      ∀ g ∈ rows.foldl addRow acc,
        g.quantity = qtyOfAcc g.item_name acc + qtySumOfKey rows g.item_name ∧
        g.gross_sales = grossOfAcc g.item_name acc + grossSumOfKey rows g.item_name := by
  induction rows with
  | nil =>
    intro acc hnd g hg
    have hfind := find?_name_of_mem acc g hnd hg
    constructor <;>
      simp [qtyOfAcc, grossOfAcc, qtySumOfKey, grossSumOfKey, hfind]
  | cons r t ih =>
    intro acc hnd g hg
    have hnd' : ((addRow acc r).map fun t => t.item_name).Nodup := by
      rw [addRow_map_name]
      exact insertNewKey_nodup _ _ hnd
    have h2 := ih (addRow acc r) hnd' g (by simpa [List.foldl_cons] using hg)
    have h3 := qtyOfAcc_addRow acc r g.item_name
    have h4 : qtySumOfKey (r :: t) g.item_name =
        (if itemKey r == g.item_name then _safe_int r.quantity else 0) +
          qtySumOfKey t g.item_name := by
      by_cases hr : (itemKey r == g.item_name) = true <;>
        simp [qtySumOfKey, List.filter_cons, hr]
    have h5 : grossSumOfKey (r :: t) g.item_name =
        (if itemKey r == g.item_name then _safe_float r.gross_sales else 0) +
          grossSumOfKey t g.item_name := by
      by_cases hr : (itemKey r == g.item_name) = true <;>
        simp [grossSumOfKey, List.filter_cons, hr]
    constructor
    · rw [h2.1, h3.1, h4]
      ring
    · rw [h2.2, h3.2, h5]
      ring

/-- The per-group totals of the fold, starting from the empty dict: each
group's quantity and gross sales are the sums over the rows with that key. -/
theorem item_totals_sums (rows : List ItemRow) (g : ItemTotal)
    (hg : g ∈ item_totals rows) :
    g.quantity = qtySumOfKey rows g.item_name ∧
    g.gross_sales = grossSumOfKey rows g.item_name := by
  have := foldl_addRow_sums rows [] (by simp) g hg
  simpa [qtyOfAcc, grossOfAcc] using this

theorem top_items_of_isEmpty (rows : List ItemRow) :
    (top_items_of rows).isEmpty = (item_totals rows).isEmpty := by
  have hlen : ((item_totals rows).mergeSort
      fun a b => decide (b.quantity ≤ a.quantity)).length =
        (item_totals rows).length :=
    (List.mergeSort_perm (item_totals rows) _).length_eq
  rw [top_items_of]
  rw [Bool.eq_iff_iff, List.isEmpty_iff_length_eq_zero,
    List.isEmpty_iff_length_eq_zero, List.length_take, hlen]
  omega

/-- C5: `load_pos_summary` groups the item rows by item name (falling back
to SKU, then `"Unknown item"`), sums the coerced quantity and gross sales
per group, and puts under `top_items` the (at most) 5 groups of greatest
quantity in descending quantity order; the key is present exactly when at
least one group exists. -/
theorem C5_item_grouping_and_top5
    (window_start : String) (daily_rows : List DailyRow) (rows : List ItemRow) :
    ((load_pos_summary true window_start (.ok daily_rows) (.ok rows)).top_items =
        none ↔ item_totals rows = []) ∧
    (item_totals rows).map (fun t => t.item_name) = firstOccur (rows.map itemKey) ∧
    (∀ g ∈ item_totals rows,
      g.quantity = qtySumOfKey rows g.item_name ∧
      g.gross_sales = grossSumOfKey rows g.item_name) ∧
    (∀ tl, (load_pos_summary true window_start (.ok daily_rows) (.ok rows)).top_items =
        some tl →
      tl.length = min 5 (item_totals rows).length ∧
      List.Pairwise (fun a b => b.quantity ≤ a.quantity) tl ∧
      (∀ g ∈ tl, g ∈ item_totals rows) ∧
      (∀ g ∈ item_totals rows, g ∉ tl → ∀ h ∈ tl, g.quantity ≤ h.quantity)) := by
  have htop : (load_pos_summary true window_start (.ok daily_rows) (.ok rows)).top_items =
      if (top_items_of rows).isEmpty then none else some (top_items_of rows) := rfl
  have hperm := List.mergeSort_perm (item_totals rows)
    fun a b => decide (b.quantity ≤ a.quantity)
  have hsorted : List.Pairwise
      (fun a b : ItemTotal => (decide (b.quantity ≤ a.quantity)) = true)
      ((item_totals rows).mergeSort fun a b => decide (b.quantity ≤ a.quantity)) :=
    @List.sorted_mergeSort ItemTotal
      (fun a b => decide (b.quantity ≤ a.quantity))
      (fun a b c hab hbc =>
        decide_eq_true (le_trans (of_decide_eq_true hbc) (of_decide_eq_true hab)))
      (fun a b => by
        rcases le_total b.quantity a.quantity with h | h <;> simp [h])
      (item_totals rows)
  refine ⟨?_, ?_, ?_, ?_⟩
  · rw [htop, top_items_of_isEmpty]
    by_cases he : item_totals rows = []
    · simp [he]
    · simp [he, List.isEmpty_iff]
  · rw [item_totals, foldl_addRow_map_name, firstOccur]
    simp
  · exact fun g hg => item_totals_sums rows g hg
  · intro tl htl
    rw [htop] at htl
    by_cases he : (top_items_of rows).isEmpty
    · rw [if_pos he] at htl
      cases htl
    · rw [if_neg he] at htl
      have htl' : tl = top_items_of rows := (Option.some_injective _ htl.symm)
      subst htl'
      refine ⟨?_, ?_, ?_, ?_⟩
      · rw [top_items_of, List.length_take, hperm.length_eq]
      · exact (List.Pairwise.sublist (List.take_sublist 5 _) hsorted).imp
          fun hab => of_decide_eq_true hab
      · intro g hg
        exact hperm.mem_iff.mp ((List.take_sublist 5 _).subset hg)
      · intro g hgroups hnotin h2 hin
        have hg' : g ∈ (item_totals rows).mergeSort
            fun a b => decide (b.quantity ≤ a.quantity) :=
          hperm.mem_iff.mpr hgroups
        rw [← List.take_append_drop 5 ((item_totals rows).mergeSort
          fun a b => decide (b.quantity ≤ a.quantity))] at hg' hsorted
        rcases List.mem_append.mp hg' with hgt | hgd
        · exact absurd hgt hnotin
        · have hrel := (List.pairwise_append.mp hsorted).2.2 h2 hin g hgd
          exact of_decide_eq_true hrel

/-- C6: fields with no file are skipped; when every present file's sanitized
name passes the extension whitelist, the call returns metadata (field,
stored path under the shared timestamp directory, original name, MIME type)
for each present file in order, all of them written; when some present file
fails the check, the `ValueError` is raised at the first such file — the
valid files before it are written and stay written (no rollback), the
invalid one and everything after it are not. -/
theorem C6_save_uploaded_files (timestamp : String)
    (files : List (String × Option PyFile)) :
    ((presentFiles files).all (fun p => fileValid p.2) = true →
      save_uploaded_files timestamp files =
        ((presentFiles files).map (storedPath timestamp),
         .ok ((presentFiles files).map (storedMeta timestamp)))) ∧
    (∀ q qs, (presentFiles files).dropWhile (fun p => fileValid p.2) = q :: qs →
      save_uploaded_files timestamp files =
        (((presentFiles files).takeWhile fun p => fileValid p.2).map
            (storedPath timestamp),
         .error ("Unsupported file type for " ++ secure_filename q.2.filename))) := by
  induction files with
  | nil =>
    constructor
    · intro _
      rfl
    · intro q qs h
      simp [presentFiles] at h
  | cons fp rest ih =>
    obtain ⟨field_name, fileOpt⟩ := fp
    cases fileOpt with
    | none =>
      simpa [save_uploaded_files, presentFiles, List.filterMap_cons] using ih
    | some f =>
      by_cases hfn : (f.filename == "") = true
      · constructor
        · intro hall
          rw [show presentFiles ((field_name, some f) :: rest) = presentFiles rest by
            simp [presentFiles, List.filterMap_cons, eq_of_beq hfn]] at hall ⊢
          simpa [save_uploaded_files, hfn] using ih.1 hall
        · intro q qs h
          rw [show presentFiles ((field_name, some f) :: rest) = presentFiles rest by
            simp [presentFiles, List.filterMap_cons, eq_of_beq hfn]] at h ⊢
          simpa [save_uploaded_files, hfn] using ih.2 q qs h
      · have hne : ¬ f.filename = "" := fun hh => hfn (by rw [hh]; rfl)
        have hpres : presentFiles ((field_name, some f) :: rest) =
            (field_name, f) :: presentFiles rest := by
          simp [presentFiles, List.filterMap_cons, hne]
        by_cases hv : fileValid f = true
        · constructor
          · intro hall
            rw [hpres] at hall ⊢
            simp only [List.all_cons, Bool.and_eq_true] at hall
            have hrest := ih.1 hall.2
            have hva : allowed_file (secure_filename f.filename) = true := hv
            simp only [save_uploaded_files, hfn, Bool.false_eq_true, if_false,
              hva, Bool.not_true, hrest]
            simp [storedPath, storedMeta]
          · intro q qs h
            rw [hpres] at h ⊢
            have hv2 : (fun p : String × PyFile => fileValid p.2) (field_name, f) = true := hv
            rw [List.dropWhile_cons, if_pos hv2] at h
            have hrest := ih.2 q qs h
            have hva : allowed_file (secure_filename f.filename) = true := hv
            simp only [save_uploaded_files, hfn, Bool.false_eq_true, if_false,
              hva, Bool.not_true, hrest]
            rw [List.takeWhile_cons, if_pos hv2]
            simp [storedPath]
        · constructor
          · intro hall
            rw [hpres] at hall
            simp only [List.all_cons, Bool.and_eq_true] at hall
            exact absurd hall.1 hv
          · intro q qs h
            rw [hpres] at h ⊢
            have hv2 : ¬ (fun p : String × PyFile => fileValid p.2) (field_name, f) = true := hv
            rw [List.dropWhile_cons, if_neg hv2] at h
            cases h with
            | refl =>
              rw [List.takeWhile_cons, if_neg hv2]
              simp only [save_uploaded_files, hfn, Bool.false_eq_true, if_false]
              have hva : allowed_file (secure_filename f.filename) = false := by
                simpa [fileValid] using hv
              simp [hva]

/-- Closed instances of C6: a single valid file is saved with its metadata,
and a single invalid file raises the typed error with nothing written. -/
theorem C6_save_uploaded_files_witness :
    save_uploaded_files "20240101000000" [("cash_photo", some ⟨"cash.png", "image/png"⟩)] =
      ((presentFiles [("cash_photo", some ⟨"cash.png", "image/png"⟩)]).map
          (storedPath "20240101000000"),
       .ok ((presentFiles [("cash_photo", some ⟨"cash.png", "image/png"⟩)]).map
          (storedMeta "20240101000000"))) ∧
    save_uploaded_files "20240101000000" [("cash_photo", some ⟨"cash.exe", "application/exe"⟩)] =
      (((presentFiles [("cash_photo", some ⟨"cash.exe", "application/exe"⟩)]).takeWhile
          fun p => fileValid p.2).map (storedPath "20240101000000"),
       .error ("Unsupported file type for " ++ secure_filename "cash.exe")) :=
  ⟨(C6_save_uploaded_files "20240101000000"
      [("cash_photo", some ⟨"cash.png", "image/png"⟩)]).1 (by decide),
   (C6_save_uploaded_files "20240101000000"
      [("cash_photo", some ⟨"cash.exe", "application/exe"⟩)]).2
      ("cash_photo", ⟨"cash.exe", "application/exe"⟩) [] (by decide)⟩

/-- C10: two present files in one call whose sanitized filenames coincide
(`"./x.png"` and `"x.png"` both sanitize to `"x.png"`) are written to the
same path in the shared timestamp directory — the second write overwrites
the first on disk — while the returned metadata still has one entry per
file, both carrying that same stored relative path. -/
theorem C10_duplicate_sanitized_names_collide :
    save_uploaded_files "20240101000000"
        [("cash_photo", some ⟨"./x.png", "image/png"⟩),
         ("sales_photo", some ⟨"x.png", "image/jpeg"⟩)] =
      (["20240101000000/x.png", "20240101000000/x.png"],
       .ok [{ field := "cash_photo", stored_name := "20240101000000/x.png",
              original_name := "x.png", mime := "image/png" },
            { field := "sales_photo", stored_name := "20240101000000/x.png",
              original_name := "x.png", mime := "image/jpeg" }]) := by
  rfl

theorem hexVal_hexDig : ∀ n < 16, hexVal (hexDig n) = some n := by
  decide

theorem hex4Val_hex4 (n : Nat) (h : n < 65536) :
    hex4Val (hexDig (n / 4096 % 16)) (hexDig (n / 256 % 16))
      (hexDig (n / 16 % 16)) (hexDig (n % 16)) = some n := by
  have h1 := hexVal_hexDig (n / 4096 % 16) (Nat.mod_lt _ (by omega))
  have h2 := hexVal_hexDig (n / 256 % 16) (Nat.mod_lt _ (by omega))
  have h3 := hexVal_hexDig (n / 16 % 16) (Nat.mod_lt _ (by omega))
  have h4 := hexVal_hexDig (n % 16) (Nat.mod_lt _ (by omega))
  simp only [hex4Val, h1, h2, h3, h4, Option.bind_some, Option.some.injEq,
    Option.bind_eq_bind, Option.some_bind, Option.pure_def]
  omega

/-- The scalar-value bounds of a `Char`: never a surrogate, always below
`0x110000`. -/
theorem char_scalar_bounds (c : Char) :
    (c.toNat < 55296 ∨ 57343 < c.toNat) ∧ c.toNat < 1114112 := by
  have hdef : c.toNat = c.val.toNat := rfl
  rcases c.valid with h | ⟨h1, h2⟩
  · exact ⟨Or.inl (by omega), by omega⟩
  · exact ⟨Or.inr (by omega), by omega⟩

/-- One definitional step of the string-body decoder on an escape prefix. -/
theorem parseStrBody_u_step (fuel : Nat) (a b c2 d : Char) (tail : List Char) :
    parseStrBody (fuel + 1) ('\\' :: 'u' :: a :: b :: c2 :: d :: tail) =
      ((hex4Val a b c2 d).bind fun n =>
        if 55296 ≤ n ∧ n ≤ 56319 then
          match tail with
          | '\\' :: 'u' :: e :: f :: g :: h :: r2 =>
            (hex4Val e f g h).bind fun m =>
              if 56320 ≤ m ∧ m ≤ 57343 then
                (parseStrBody fuel r2).map fun p =>
                  (Char.ofNat (65536 + (n - 55296) * 1024 + (m - 56320)) :: p.1, p.2)
              else none
          | _ => none
        else if 56320 ≤ n ∧ n ≤ 57343 then none
        else (parseStrBody fuel tail).map fun p => (Char.ofNat n :: p.1, p.2)) := rfl

/-- Decoding a single `\uXXXX` escape of a non-surrogate value. -/
theorem parseStrBody_uEscape (fuel n : Nat) (h9 : n < 65536)
    (hs1 : ¬(55296 ≤ n ∧ n ≤ 56319)) (hs2 : ¬(56320 ≤ n ∧ n ≤ 57343))
    (tail : List Char) :
    parseStrBody (fuel + 1) (uEscape n ++ tail) =
      (parseStrBody fuel tail).map fun p => (Char.ofNat n :: p.1, p.2) := by
  have hseq : uEscape n ++ tail =
      '\\' :: 'u' :: hexDig (n / 4096 % 16) :: hexDig (n / 256 % 16) ::
        hexDig (n / 16 % 16) :: hexDig (n % 16) :: tail := rfl
  rw [hseq, parseStrBody_u_step, hex4Val_hex4 n h9]
  simp only [Option.some_bind]
  rw [if_neg hs1, if_neg hs2]

/-- Decoding a surrogate-pair escape back to its astral code point. -/
theorem parseStrBody_uPair (fuel n m : Nat) (hn : n < 65536) (hm : m < 65536)
    (hs1 : 55296 ≤ n ∧ n ≤ 56319) (hs2 : 56320 ≤ m ∧ m ≤ 57343)
    (tail : List Char) :
    parseStrBody (fuel + 1) (uEscape n ++ (uEscape m ++ tail)) =
      (parseStrBody fuel tail).map fun p =>
        (Char.ofNat (65536 + (n - 55296) * 1024 + (m - 56320)) :: p.1, p.2) := by
  have hseq : uEscape n ++ (uEscape m ++ tail) =
      '\\' :: 'u' :: hexDig (n / 4096 % 16) :: hexDig (n / 256 % 16) ::
        hexDig (n / 16 % 16) :: hexDig (n % 16) ::
      ('\\' :: 'u' :: hexDig (m / 4096 % 16) :: hexDig (m / 256 % 16) ::
        hexDig (m / 16 % 16) :: hexDig (m % 16) :: tail) := rfl
  rw [hseq, parseStrBody_u_step, hex4Val_hex4 n hn]
  simp only [Option.some_bind]
  rw [if_pos hs1]
  show ((hex4Val (hexDig (m / 4096 % 16)) (hexDig (m / 256 % 16))
      (hexDig (m / 16 % 16)) (hexDig (m % 16))).bind fun m2 =>
      if 56320 ≤ m2 ∧ m2 ≤ 57343 then
        (parseStrBody fuel tail).map fun p =>
          (Char.ofNat (65536 + (n - 55296) * 1024 + (m2 - 56320)) :: p.1, p.2)
      else none) = _
  rw [hex4Val_hex4 m hm]
  simp only [Option.some_bind]
  rw [if_pos hs2]

/-- One definitional step of the string-body decoder on an arbitrary cons
cell. -/
theorem parseStrBody_cons (fuel : Nat) (c : Char) (tail : List Char) :
    parseStrBody (fuel + 1) (c :: tail) =
      (if c = '"' then some ([], tail)
       else if c = '\\' then
         match tail with
         | '"' :: r => (parseStrBody fuel r).map fun p => ('"' :: p.1, p.2)
         | '\\' :: r => (parseStrBody fuel r).map fun p => ('\\' :: p.1, p.2)
         | '/' :: r => (parseStrBody fuel r).map fun p => ('/' :: p.1, p.2)
         | 'n' :: r => (parseStrBody fuel r).map fun p => ('\n' :: p.1, p.2)
         | 't' :: r => (parseStrBody fuel r).map fun p => ('\t' :: p.1, p.2)
         | 'r' :: r => (parseStrBody fuel r).map fun p => ('\r' :: p.1, p.2)
         | 'b' :: r => (parseStrBody fuel r).map fun p => (Char.ofNat 8 :: p.1, p.2)
         | 'f' :: r => (parseStrBody fuel r).map fun p => (Char.ofNat 12 :: p.1, p.2)
         | 'u' :: a :: b :: c2 :: d :: r =>
           (hex4Val a b c2 d).bind fun n =>
             if 55296 ≤ n ∧ n ≤ 56319 then
               match r with
               | '\\' :: 'u' :: e :: f :: g :: h :: r2 =>
                 (hex4Val e f g h).bind fun m =>
                   if 56320 ≤ m ∧ m ≤ 57343 then
                     (parseStrBody fuel r2).map fun p =>
                       (Char.ofNat (65536 + (n - 55296) * 1024 + (m - 56320)) :: p.1,
                        p.2)
                   else none
               | _ => none
             else if 56320 ≤ n ∧ n ≤ 57343 then none
             else (parseStrBody fuel r).map fun p => (Char.ofNat n :: p.1, p.2)
         | _ => none
       else if c.toNat < 32 then none
       else (parseStrBody fuel tail).map fun p => (c :: p.1, p.2)) := rfl

/-- Decoding one serialized character from the front of a string body. -/
theorem parseStrBody_escChar (fuel : Nat) (c : Char) (tail cs rest : List Char)
    (ih : parseStrBody fuel tail = some (cs, rest)) :
    parseStrBody (fuel + 1) (jEscapeChar c ++ tail) = some (c :: cs, rest) := by
  by_cases h1 : c = '"'
  · subst h1
    show parseStrBody (fuel + 1) ('\\' :: '"' :: tail) = _
    rw [show parseStrBody (fuel + 1) ('\\' :: '"' :: tail) =
      (parseStrBody fuel tail).map (fun p => ('"' :: p.1, p.2)) from rfl, ih]
    rfl
  · by_cases h2 : c = '\\'
    · subst h2
      show parseStrBody (fuel + 1) ('\\' :: '\\' :: tail) = _
      rw [show parseStrBody (fuel + 1) ('\\' :: '\\' :: tail) =
        (parseStrBody fuel tail).map (fun p => ('\\' :: p.1, p.2)) from rfl, ih]
      rfl
    · by_cases h3 : c = '\n'
      · subst h3
        show parseStrBody (fuel + 1) ('\\' :: 'n' :: tail) = _
        rw [show parseStrBody (fuel + 1) ('\\' :: 'n' :: tail) =
          (parseStrBody fuel tail).map (fun p => ('\n' :: p.1, p.2)) from rfl, ih]
        rfl
      · by_cases h4 : c = '\t'
        · subst h4
          show parseStrBody (fuel + 1) ('\\' :: 't' :: tail) = _
          rw [show parseStrBody (fuel + 1) ('\\' :: 't' :: tail) =
            (parseStrBody fuel tail).map (fun p => ('\t' :: p.1, p.2)) from rfl, ih]
          rfl
        · by_cases h5 : c = '\r'
          · subst h5
            show parseStrBody (fuel + 1) ('\\' :: 'r' :: tail) = _
            rw [show parseStrBody (fuel + 1) ('\\' :: 'r' :: tail) =
              (parseStrBody fuel tail).map (fun p => ('\r' :: p.1, p.2)) from rfl, ih]
            rfl
          · by_cases h6 : c.toNat = 8
            · have hc : Char.ofNat 8 = c := by rw [← h6, Char.ofNat_toNat]
              have hesc : jEscapeChar c = ['\\', 'b'] := by
                rw [jEscapeChar, if_neg h1, if_neg h2, if_neg h3, if_neg h4,
                  if_neg h5, if_pos h6]
              rw [hesc]
              show parseStrBody (fuel + 1) ('\\' :: 'b' :: tail) = _
              rw [show parseStrBody (fuel + 1) ('\\' :: 'b' :: tail) =
                (parseStrBody fuel tail).map (fun p => (Char.ofNat 8 :: p.1, p.2)) from rfl,
                ih, hc]
              rfl
            · by_cases h7 : c.toNat = 12
              · have hc : Char.ofNat 12 = c := by rw [← h7, Char.ofNat_toNat]
                have hesc : jEscapeChar c = ['\\', 'f'] := by
                  rw [jEscapeChar, if_neg h1, if_neg h2, if_neg h3, if_neg h4,
                    if_neg h5, if_neg h6, if_pos h7]
                rw [hesc]
                show parseStrBody (fuel + 1) ('\\' :: 'f' :: tail) = _
                rw [show parseStrBody (fuel + 1) ('\\' :: 'f' :: tail) =
                  (parseStrBody fuel tail).map (fun p => (Char.ofNat 12 :: p.1, p.2)) from rfl,
                  ih, hc]
                rfl
              · by_cases h8 : c.toNat < 32 ∨ 127 ≤ c.toNat
                · have hbounds := char_scalar_bounds c
                  by_cases h9 : c.toNat < 65536
                  · have hesc : jEscapeChar c = uEscape c.toNat := by
                      rw [jEscapeChar, if_neg h1, if_neg h2, if_neg h3, if_neg h4,
                        if_neg h5, if_neg h6, if_neg h7, if_pos h8, if_pos h9]
                    rw [hesc, parseStrBody_uEscape fuel c.toNat h9
                      (by omega) (by omega) tail, ih, Char.ofNat_toNat]
                    rfl
                  · have hesc : jEscapeChar c =
                        uEscape (55296 + (c.toNat - 65536) / 1024) ++
                          uEscape (56320 + (c.toNat - 65536) % 1024) := by
                      rw [jEscapeChar, if_neg h1, if_neg h2, if_neg h3, if_neg h4,
                        if_neg h5, if_neg h6, if_neg h7, if_pos h8, if_neg h9]
                    have hmod := Nat.mod_lt (c.toNat - 65536) (show 0 < 1024 by omega)
                    have hdiv : (c.toNat - 65536) / 1024 < 1024 := by
                      have : c.toNat - 65536 < 1048576 := by omega
                      omega
                    have hrecon := Nat.div_add_mod (c.toNat - 65536) 1024
                    rw [hesc, List.append_assoc,
                      parseStrBody_uPair fuel (55296 + (c.toNat - 65536) / 1024)
                        (56320 + (c.toNat - 65536) % 1024)
                        (by omega) (by omega) (by omega) (by omega) tail, ih]
                    have heq : 65536 + (55296 + (c.toNat - 65536) / 1024 - 55296) * 1024 +
                        (56320 + (c.toNat - 65536) % 1024 - 56320) = c.toNat := by
                      omega
                    rw [heq, Char.ofNat_toNat]
                    rfl
                · have hesc : jEscapeChar c = [c] := by
                    rw [jEscapeChar, if_neg h1, if_neg h2, if_neg h3, if_neg h4,
                      if_neg h5, if_neg h6, if_neg h7, if_neg h8]
                  have hge : ¬ c.toNat < 32 := by omega
                  rw [hesc, List.cons_append, List.nil_append, parseStrBody_cons,
                    if_neg h1, if_neg h2, if_neg hge, ih]
                  rfl

/-- Each serialized character occupies at least one character of output. -/
theorem length_le_escapeList (cs : List Char) :
    cs.length ≤ (escapeList cs).length := by
  induction cs with
  | nil => simp [escapeList]
  | cons c t ih =>
    have h1 : 1 ≤ (jEscapeChar c).length := by
      rw [jEscapeChar]
      split_ifs <;> simp [uEscape, hex4]
    simp only [escapeList, List.length_append, List.length_cons]
    omega

/-- Decoding a serialized string body: left inverse of the serializer, for
any fuel above the decoded length. -/
theorem parseStrBody_escapeList (cs : List Char) :
    ∀ (fuel : Nat), cs.length < fuel →
      ∀ rest, parseStrBody fuel (escapeList cs ++ '"' :: rest) = some (cs, rest) := by
  induction cs with
  | nil =>
    intro fuel hf rest
    cases fuel with
    | zero => omega
    | succ f =>
      show parseStrBody (f + 1) ('"' :: rest) = _
      rfl
  | cons c t ih =>
    intro fuel hf rest
    cases fuel with
    | zero => omega
    | succ f =>
      rw [escapeList, List.append_assoc]
      exact parseStrBody_escChar f c _ t rest (ih f (by simpa using hf) rest)

theorem sizeV_pos (v : JVal) : 1 ≤ sizeV v := by
  cases v <;> simp [sizeV]

/-- A serialized value starts with a quote or an opening bracket. -/
theorem dumpV_head_cases (v : JVal) :
    ∃ c cs, dumpV v = c :: cs ∧ (c = '"' ∨ c = '[' ∨ c = '{') := by
  cases v with
  | str s => exact ⟨'"', _, rfl, Or.inl rfl⟩
  | arr items =>
    cases items with
    | nil => exact ⟨'[', _, rfl, Or.inr (Or.inl rfl)⟩
    | cons a l => exact ⟨'[', _, rfl, Or.inr (Or.inl rfl)⟩
  | obj fields =>
    cases fields with
    | nil => exact ⟨'{', _, rfl, Or.inr (Or.inr rfl)⟩
    | cons kv l => exact ⟨'{', _, rfl, Or.inr (Or.inr rfl)⟩

/-- One definitional step of the value decoder after an opening `[`. -/
theorem parseVal_lbracket (fuel : Nat) (rest : List Char) :
    parseVal (fuel + 1) ('[' :: rest) =
      (if (skipWs rest).head? = some ']' then some (.arr [], (skipWs rest).tail)
       else
         match parseVal fuel rest with
         | some (v, r) =>
           match parseArrTail fuel r with
           | some (vs, r2) => some (.arr (v :: vs), r2)
           | none => none
         | none => none) := rfl

/-- One definitional step of the value decoder after an opening `{`. -/
theorem parseVal_lbrace (fuel : Nat) (rest : List Char) :
    parseVal (fuel + 1) ('{' :: rest) =
      (if (skipWs rest).head? = some '}' then some (.obj [], (skipWs rest).tail)
       else
         match parsePair fuel rest with
         | some (kv, r) =>
           match parseObjTail fuel r with
           | some (kvs, r2) => some (.obj (kv :: kvs), r2)
           | none => none
         | none => none) := rfl

/-- The decoders ignore a leading space. -/
theorem parseVal_ws (fuel : Nat) (chars : List Char) :
    parseVal fuel (' ' :: chars) = parseVal fuel chars := by
  cases fuel <;> rfl

theorem parsePair_ws (fuel : Nat) (chars : List Char) :
    parsePair fuel (' ' :: chars) = parsePair fuel chars := by
  cases fuel <;> rfl

/-- The decoders are left inverse to the serializer, for any fuel at least
the node count: the four statements of the mutual induction. -/
theorem parse_dump (fuel : Nat) :
    (∀ v : JVal, sizeV v ≤ fuel → ∀ rest,
      parseVal fuel (dumpV v ++ rest) = some (v, rest)) ∧
    (∀ (k : String) (v : JVal), sizeV v + 1 ≤ fuel → ∀ rest,
      parsePair fuel (dumpPair (k, v) ++ rest) = some ((k, v), rest)) ∧
    (∀ vs : List JVal, sizeL vs + 1 ≤ fuel → ∀ rest,
      parseArrTail fuel (dumpArrTail vs ++ ']' :: rest) = some (vs, rest)) ∧
    (∀ kvs : List (String × JVal), sizeO kvs + 1 ≤ fuel → ∀ rest,
      parseObjTail fuel (dumpObjTail kvs ++ '}' :: rest) = some (kvs, rest)) := by
  induction fuel with
  | zero =>
    refine ⟨?_, ?_, ?_, ?_⟩
    · intro v hv
      have := sizeV_pos v
      omega
    · intro k v hv
      omega
    · intro vs hvs
      omega
    · intro kvs hkvs
      omega
  | succ fuel ih =>
    obtain ⟨ihV, ihP, ihA, ihO⟩ := ih
    refine ⟨?_, ?_, ?_, ?_⟩
    · -- parseVal
      intro v hv rest
      cases v with
      | str s =>
        rw [show dumpV (.str s) ++ rest =
          '"' :: (escapeList s.data ++ '"' :: rest) from by
            simp [dumpV, dumpStr]]
        rw [show parseVal (fuel + 1) ('"' :: (escapeList s.data ++ '"' :: rest)) =
          (match parseStrBody ((escapeList s.data ++ '"' :: rest).length + 1)
              (escapeList s.data ++ '"' :: rest) with
           | some (cs, r) => some (.str (String.mk cs), r)
           | none => none) from rfl]
        have hlen : s.data.length < (escapeList s.data ++ '"' :: rest).length + 1 := by
          have := length_le_escapeList s.data
          simp only [List.length_append, List.length_cons]
          omega
        rw [parseStrBody_escapeList s.data _ hlen rest]
      | arr items =>
        cases items with
        | nil =>
          rw [show dumpV (.arr []) ++ rest = '[' :: ']' :: rest from rfl]
          rfl
        | cons v vs =>
          have hsz : sizeV v ≤ fuel ∧ sizeL vs + 1 ≤ fuel := by
            have h1 := sizeV_pos v
            simp only [sizeV, sizeL] at hv
            omega
          rw [show dumpV (.arr (v :: vs)) ++ rest =
            '[' :: (dumpV v ++ (dumpArrTail vs ++ ']' :: rest)) from by
              simp [dumpV]]
          rw [parseVal_lbracket]
          obtain ⟨c0, cs0, hdump, hc0⟩ := dumpV_head_cases v
          have hskip : skipWs (dumpV v ++ (dumpArrTail vs ++ ']' :: rest)) =
              dumpV v ++ (dumpArrTail vs ++ ']' :: rest) := by
            rw [hdump, List.cons_append]
            rcases hc0 with rfl | rfl | rfl <;> rfl
          have hhead : ¬ (skipWs (dumpV v ++ (dumpArrTail vs ++ ']' :: rest))).head? =
              some ']' := by
            rw [hskip, hdump, List.cons_append]
            rcases hc0 with rfl | rfl | rfl <;> simp
          rw [if_neg hhead, ihV v hsz.1 (dumpArrTail vs ++ ']' :: rest)]
          show (match parseArrTail fuel (dumpArrTail vs ++ ']' :: rest) with
            | some (vs2, r3) => some (JVal.arr (v :: vs2), r3)
            | none => none) = _
          rw [ihA vs hsz.2 rest]
      | obj fields =>
        cases fields with
        | nil =>
          rw [show dumpV (.obj []) ++ rest = '{' :: '}' :: rest from rfl]
          rfl
        | cons kv kvs =>
          obtain ⟨k, v⟩ := kv
          have hsz : sizeV v + 1 ≤ fuel ∧ sizeO kvs + 1 ≤ fuel := by
            have h1 := sizeV_pos v
            simp only [sizeV, sizeO] at hv
            omega
          rw [show dumpV (.obj ((k, v) :: kvs)) ++ rest =
            '{' :: (dumpPair (k, v) ++ (dumpObjTail kvs ++ '}' :: rest)) from by
              simp [dumpV]]
          rw [parseVal_lbrace]
          have hskip : skipWs (dumpPair (k, v) ++ (dumpObjTail kvs ++ '}' :: rest)) =
              dumpPair (k, v) ++ (dumpObjTail kvs ++ '}' :: rest) := by
            rw [show dumpPair (k, v) = '"' :: (escapeList k.data ++
              ('"' :: ':' :: ' ' :: dumpV v)) from by simp [dumpPair, dumpStr], List.cons_append]
            rfl
          have hhead : ¬ (skipWs (dumpPair (k, v) ++ (dumpObjTail kvs ++ '}' :: rest))).head? =
              some '}' := by
            rw [hskip, show dumpPair (k, v) = '"' :: (escapeList k.data ++
              ('"' :: ':' :: ' ' :: dumpV v)) from by simp [dumpPair, dumpStr], List.cons_append]
            simp
          rw [if_neg hhead, ihP k v hsz.1 (dumpObjTail kvs ++ '}' :: rest)]
          show (match parseObjTail fuel (dumpObjTail kvs ++ '}' :: rest) with
            | some (kvs2, r3) => some (JVal.obj ((k, v) :: kvs2), r3)
            | none => none) = _
          rw [ihO kvs hsz.2 rest]
    · -- parsePair
      intro k v hv rest
      have hsz : sizeV v ≤ fuel := by omega
      rw [show dumpPair (k, v) ++ rest =
        '"' :: (escapeList k.data ++ '"' :: (':' :: ' ' :: (dumpV v ++ rest))) from by
          simp [dumpPair, dumpStr]]
      rw [show parsePair (fuel + 1)
          ('"' :: (escapeList k.data ++ '"' :: (':' :: ' ' :: (dumpV v ++ rest)))) =
        (match parseStrBody
            ((escapeList k.data ++ '"' :: (':' :: ' ' :: (dumpV v ++ rest))).length + 1)
            (escapeList k.data ++ '"' :: (':' :: ' ' :: (dumpV v ++ rest))) with
         | some (cs, r) =>
           match skipWs r with
           | ':' :: r2 =>
             match parseVal fuel r2 with
             | some (v2, r3) => some ((String.mk cs, v2), r3)
             | none => none
           | _ => none
         | none => none) from rfl]
      have hlen : k.data.length <
          (escapeList k.data ++ '"' :: (':' :: ' ' :: (dumpV v ++ rest))).length + 1 := by
        have := length_le_escapeList k.data
        simp only [List.length_append, List.length_cons]
        omega
      rw [parseStrBody_escapeList k.data _ hlen (':' :: ' ' :: (dumpV v ++ rest))]
      show (match parseVal fuel (' ' :: (dumpV v ++ rest)) with
        | some (v2, r3) => some ((String.mk k.data, v2), r3)
        | none => none) = _
      rw [parseVal_ws, ihV v hsz rest]
    · -- parseArrTail
      intro vs hvs rest
      cases vs with
      | nil =>
        rw [show dumpArrTail [] ++ ']' :: rest = ']' :: rest from rfl]
        rfl
      | cons v t =>
        have hsz : sizeV v ≤ fuel ∧ sizeL t + 1 ≤ fuel := by
          have h1 := sizeV_pos v
          simp only [sizeL] at hvs
          omega
        rw [show dumpArrTail (v :: t) ++ ']' :: rest =
          ',' :: ' ' :: (dumpV v ++ (dumpArrTail t ++ ']' :: rest)) from by
            simp [dumpArrTail]]
        rw [show parseArrTail (fuel + 1)
            (',' :: ' ' :: (dumpV v ++ (dumpArrTail t ++ ']' :: rest))) =
          (match parseVal fuel (' ' :: (dumpV v ++ (dumpArrTail t ++ ']' :: rest))) with
           | some (v2, r2) =>
             match parseArrTail fuel r2 with
             | some (vs2, r3) => some (v2 :: vs2, r3)
             | none => none
           | none => none) from rfl]
        rw [parseVal_ws, ihV v hsz.1 (dumpArrTail t ++ ']' :: rest)]
        show (match parseArrTail fuel (dumpArrTail t ++ ']' :: rest) with
          | some (vs2, r3) => some (v :: vs2, r3)
          | none => none) = _
        rw [ihA t hsz.2 rest]
    · -- parseObjTail
      intro kvs hkvs rest
      cases kvs with
      | nil =>
        rw [show dumpObjTail [] ++ '}' :: rest = '}' :: rest from rfl]
        rfl
      | cons kv t =>
        obtain ⟨k, v⟩ := kv
        have hsz : sizeV v + 1 ≤ fuel ∧ sizeO t + 1 ≤ fuel := by
          have h1 := sizeV_pos v
          simp only [sizeO] at hkvs
          omega
        rw [show dumpObjTail ((k, v) :: t) ++ '}' :: rest =
          ',' :: ' ' :: (dumpPair (k, v) ++ (dumpObjTail t ++ '}' :: rest)) from by
            simp [dumpObjTail]]
        rw [show parseObjTail (fuel + 1)
            (',' :: ' ' :: (dumpPair (k, v) ++ (dumpObjTail t ++ '}' :: rest))) =
          (match parsePair fuel (' ' :: (dumpPair (k, v) ++ (dumpObjTail t ++ '}' :: rest))) with
           | some (kv2, r2) =>
             match parseObjTail fuel r2 with
             | some (kvs2, r3) => some (kv2 :: kvs2, r3)
             | none => none
           | none => none) from rfl]
        rw [parsePair_ws, ihP k v hsz.1 (dumpObjTail t ++ '}' :: rest)]
        show (match parseObjTail fuel (dumpObjTail t ++ '}' :: rest) with
          | some (kvs2, r3) => some ((k, v) :: kvs2, r3)
          | none => none) = _
        rw [ihO t hsz.2 rest]

mutual

/-- A serialized value is at least as long as its node count. -/
theorem sizeV_le_dumpV (v : JVal) : sizeV v ≤ (dumpV v).length := by
  cases v with
  | str s => simp [dumpV, dumpStr, sizeV]
  | arr items =>
    cases items with
    | nil => simp [dumpV, sizeV, sizeL]
    | cons v vs =>
      have h1 := sizeV_le_dumpV v
      have h2 := sizeL_le_dumpArrTail vs
      simp only [dumpV, sizeV, sizeL, List.length_cons, List.length_append]
      omega
  | obj fields =>
    cases fields with
    | nil => simp [dumpV, sizeV, sizeO]
    | cons kv kvs =>
      obtain ⟨k, v⟩ := kv
      have h1 := sizeV_le_dumpV v
      have h2 := sizeO_le_dumpObjTail kvs
      simp only [dumpV, sizeV, sizeO, dumpPair, dumpStr, List.length_cons,
        List.length_append]
      omega

theorem sizeL_le_dumpArrTail (vs : List JVal) : sizeL vs ≤ (dumpArrTail vs).length := by
  cases vs with
  | nil => simp [dumpArrTail, sizeL]
  | cons v t =>
    have h1 := sizeV_le_dumpV v
    have h2 := sizeL_le_dumpArrTail t
    simp only [dumpArrTail, sizeL, List.length_cons, List.length_append]
    omega

theorem sizeO_le_dumpObjTail (kvs : List (String × JVal)) :
    sizeO kvs ≤ (dumpObjTail kvs).length := by
  cases kvs with
  | nil => simp [dumpObjTail, sizeO]
  | cons kv t =>
    obtain ⟨k, v⟩ := kv
    have h1 := sizeV_le_dumpV v
    have h2 := sizeO_le_dumpObjTail t
    simp only [dumpObjTail, dumpPair, dumpStr, sizeO, List.length_cons,
      List.length_append]
    omega

end

/-- Models `json.loads` inverts `json.dumps` on every storable JSON value. -/
theorem json_loads_dumps (v : JVal) : json_loads (json_dumps v) = some v := by
  rw [json_loads, json_dumps]
  have hdata : (String.mk (dumpV v)).data = dumpV v := rfl
  rw [hdata]
  have hfuel : sizeV v ≤ (dumpV v).length + 1 := by
    have := sizeV_le_dumpV v
    omega
  have h := (parse_dump ((dumpV v).length + 1)).1 v hfuel []
  rw [show dumpV v ++ [] = dumpV v from by simp] at h
  rw [h]
  rfl

/-- C8: serializing a shift payload into the submission's JSON text column
via `store_submission` (`json.dumps`) and decoding it again with the
display-side `load_payload` filter yields the same file-metadata list and
notes: decode after encode is the identity on stored payloads. -/
theorem C8_payload_roundtrip (files : List StoredFile) (notes : String) :
    load_payload (some (json_dumps (shiftPayloadJ files notes))) =
      shiftPayloadJ files notes := by
  have hne : (json_dumps (shiftPayloadJ files notes) == "") = false := by
    apply beq_eq_false_iff_ne.mpr
    intro h
    have : (json_dumps (shiftPayloadJ files notes)).data = [] := by
      rw [h]
    rw [show (json_dumps (shiftPayloadJ files notes)).data =
      dumpV (shiftPayloadJ files notes) from rfl] at this
    simp [shiftPayloadJ, dumpV] at this
  rw [load_payload, hne]
  simp only [Bool.false_eq_true, if_false]
  rw [json_loads_dumps]

/-- C7: a shift upload that saves fewer than 3 of the named files — whether
because a field is missing/empty or because a file fails validation — is
rejected with a user-visible message and inserts no submission row; when
all 3 save, exactly one submission with category `"shift"` and the given
notes is appended. -/
theorem C7_upload_shift (user : User) (notes : String)
    (scratcher cash sales : Option PyFile) (ts now : String)
    (db : List Submission) :
    (∀ e, (save_uploaded_files ts
        [("scratcher_video", scratcher), ("cash_photo", cash),
         ("sales_photo", sales)]).2 = .error e →
      upload_shift user notes scratcher cash sales ts now db = (db, e)) ∧
    (∀ saved, (save_uploaded_files ts
        [("scratcher_video", scratcher), ("cash_photo", cash),
         ("sales_photo", sales)]).2 = .ok saved → saved.length < 3 →
      upload_shift user notes scratcher cash sales ts now db =
        (db, "All three files are required for end-of-shift upload.")) ∧
    (∀ saved, (save_uploaded_files ts
        [("scratcher_video", scratcher), ("cash_photo", cash),
         ("sales_photo", sales)]).2 = .ok saved → ¬ saved.length < 3 →
      upload_shift user notes scratcher cash sales ts now db =
        (db ++ [{ user_id := user.id, employee_name := user.name,
                  store_number := user.store_number, category := "shift",
                  report_type := "shift", notes := notes,
                  payload := json_dumps (shiftPayloadJ saved notes),
                  created_at := now }],
         "Shift submitted. Great work!")) := by
  refine ⟨?_, ?_, ?_⟩
  · intro e he
    rw [upload_shift]
    rcases hs : save_uploaded_files ts
      [("scratcher_video", scratcher), ("cash_photo", cash),
       ("sales_photo", sales)] with ⟨written, res⟩
    rw [hs] at he
    simp only at he
    rw [he]
  · intro saved hs hlt
    rw [upload_shift]
    rcases hsave : save_uploaded_files ts
      [("scratcher_video", scratcher), ("cash_photo", cash),
       ("sales_photo", sales)] with ⟨written, res⟩
    rw [hsave] at hs
    simp only at hs
    rw [hs]
    simp only [if_pos hlt]
  · intro saved hs hge
    rw [upload_shift]
    rcases hsave : save_uploaded_files ts
      [("scratcher_video", scratcher), ("cash_photo", cash),
       ("sales_photo", sales)] with ⟨written, res⟩
    rw [hsave] at hs
    simp only at hs
    rw [hs]
    simp only [if_neg hge]
    rfl

/-- Closed instances of C7: an upload with only 2 of the 3 files is
rejected with the fixed message and the table is unchanged; an upload of 3
valid files appends exactly one `"shift"` row with the given notes. -/
theorem C7_upload_shift_witness :
    upload_shift
        { id := 1, name := "Alex Employee", email := "employee@hiremote.com",
          role := "employee", store_number := "101" }
        "all good" (some ⟨"shot.jpg", "image/jpeg"⟩) (some ⟨"cash.png", "image/png"⟩)
        none "20240101000000" "2024-01-01T00:00:00" [] =
      ([], "All three files are required for end-of-shift upload.") ∧
    (upload_shift
        { id := 1, name := "Alex Employee", email := "employee@hiremote.com",
          role := "employee", store_number := "101" }
        "all good" (some ⟨"shot.jpg", "image/jpeg"⟩) (some ⟨"cash.png", "image/png"⟩)
        (some ⟨"sales.pdf", "application/pdf"⟩) "20240101000000"
        "2024-01-01T00:00:00" []).1.map
          (fun s => (s.category, s.notes, s.employee_name)) =
      [("shift", "all good", "Alex Employee")] := by
  constructor
  · have h := (C7_upload_shift
      { id := 1, name := "Alex Employee", email := "employee@hiremote.com",
        role := "employee", store_number := "101" }
      "all good" (some ⟨"shot.jpg", "image/jpeg"⟩) (some ⟨"cash.png", "image/png"⟩)
      none "20240101000000" "2024-01-01T00:00:00" []).2.1
    exact h _ rfl (by decide)
  · have h := (C7_upload_shift
      { id := 1, name := "Alex Employee", email := "employee@hiremote.com",
        role := "employee", store_number := "101" }
      "all good" (some ⟨"shot.jpg", "image/jpeg"⟩) (some ⟨"cash.png", "image/png"⟩)
      (some ⟨"sales.pdf", "application/pdf"⟩) "20240101000000"
      "2024-01-01T00:00:00" []).2.2
    rw [h _ rfl (by decide)]
    rfl

/-- Closed instance of C5: one item row produces one group, which is the
whole `top_items` list and carries the row's coerced quantity and gross
sales. -/
theorem C5_item_grouping_and_top5_witness :
    (load_pos_summary true "2024-01-01" (.ok []) (.ok [c5Row])).top_items =
      some [c5Group] ∧
    ([c5Group].length = min 5 (item_totals [c5Row]).length ∧
     List.Pairwise (fun a b : ItemTotal => b.quantity ≤ a.quantity) [c5Group] ∧
     (∀ g ∈ [c5Group], g ∈ item_totals [c5Row]) ∧
     (∀ g ∈ item_totals [c5Row], g ∉ [c5Group] →
       ∀ h ∈ [c5Group], g.quantity ≤ h.quantity)) := by
  have htotals : item_totals [c5Row] = [c5Group] := rfl
  have htop : top_items_of [c5Row] = [c5Group] := by
    rw [top_items_of, htotals, List.mergeSort_singleton]
    rfl
  have htl : (load_pos_summary true "2024-01-01" (.ok []) (.ok [c5Row])).top_items =
      some [c5Group] := by
    show (if (top_items_of [c5Row]).isEmpty then none
      else some (top_items_of [c5Row])) = _
    rw [htop]
    rfl
  exact ⟨htl, (C5_item_grouping_and_top5 "2024-01-01" [] [c5Row]).2.2.2 _ htl⟩

end Hiremote
